import Mathlib

/-!
Formal model of the round-robin host selection logic (`getLuckyUser` and its
helper stages `getUsersBasedOnWeights`, `getUsersWithHighestPriority`,
`leastRecentlyBookedUser`) of a meeting-scheduling application.

Embedding conventions:
* timestamps (`createdAt`, `Date` values) are `Nat` milliseconds since the
  epoch; `new Date(0)` is `0`;
* JavaScript numbers used for weights/adjustments/shortfalls are modelled as
  exact rationals `ℚ`; `Math.max(...)` over a possibly empty list is modelled
  by `List.maximum : List α → WithBot α`, with `⊥` playing the role of
  `-Infinity` (which is `===`-equal to no finite value and not `=== 2`);
* the database query for the most recent qualifying organizer booking of each
  user (the `prisma.user.findMany` call) is an external collaborator; its
  result is a parameter `lastOrganizerBookingCreatedAt : Int → Option Nat`
  giving, per user id, the `createdAt` of the single most recent booking of
  the event type where the user is the organizer, did not no-show as host,
  and at least one attendee was not a no-show (`none` when no such booking
  exists; every available user is assumed to exist in the database);
* similarly `allBookings` (fetched from the booking repository inside
  `getLuckyUser`) is passed as a parameter;
* the `Math.random()` coin flips inside the sort comparator are modelled by a
  parameter `rnd : PartialUser → PartialUser → Bool` (the outcomes of one
  run); `Array.prototype.sort` (stable in modern engines) is modelled by the
  stable `List.mergeSort`;
* functions that can `throw` return `Except String`; `undefined` results are
  `Option.none`.
-/

/-- An attendee row of a booking: only the (nullable) email is used. -/
structure Attendee where
  email : Option String
deriving DecidableEq, Repr

/-- `PartialBooking`: the projection of a booking used by the selector
(`Pick<Booking, "id" | "createdAt" | "userId" | "status">` plus attendee
emails). The `status` field is selected but never read by the selector, so it
is omitted. `userId` (the organizing user) is nullable. -/
structure PartialBooking where
  id : Int
  createdAt : Nat
  userId : Option Int
  attendees : List Attendee
deriving DecidableEq, Repr

/-- `PartialUser` (`Pick<User, "id" | "email">`) together with the optional
fields that the generic parameter `T` of `getLuckyUser` may carry
(`priority`, `weight`, `weightAdjustment`), all nullable. -/
structure PartialUser where
  id : Int
  email : String
  priority : Option Int := none
  weight : Option ℚ := none
  weightAdjustment : Option ℚ := none
deriving DecidableEq, Repr

/-- The `eventType` parameter: id and the weighting flag. -/
structure EventTypeInfo where
  id : Int
  isRRWeightsEnabled : Bool
deriving DecidableEq, Repr

/-- One entry of `allRRHosts`: the host user plus per-event-type weight
configuration. -/
structure RRHost where
  userId : Int
  userEmail : String
  weight : Option ℚ := none
  weightAdjustment : Option ℚ := none
deriving DecidableEq, Repr

/-- The record argument of `getLuckyUser` (`GetLuckyUserParams<T>`). -/
structure GetLuckyUserParams where
  availableUsers : List PartialUser
  eventType : EventTypeInfo
  allRRHosts : List RRHost
deriving DecidableEq, Repr

/-- The organizer-recency map `organizerIdAndAtCreatedPair`: for each user id
the value `user.bookings[0]?.createdAt || new Date(0)`, where `user.bookings`
is the result of the external database query (see module docstring). A `Date`
object is always truthy, so `||` fires exactly when the query returned no
booking. -/
def organizerIdAndAtCreatedPair (lastOrganizerBookingCreatedAt : Int → Option Nat)
    (userId : Int) : Nat :=
  (lastOrganizerBookingCreatedAt userId).getD 0

/-- `booking.attendees.map((attendee) => attendee.email).includes(user.email)`:
whether the booking lists the (non-null) email among its attendees. -/
def bookingListsEmail (booking : PartialBooking) (email : String) : Bool :=
  (booking.attendees.map (fun attendee => attendee.email)).contains (some email)

/-- The body of the inner `forEach` over `availableUsers` building
`attendeeUserIdAndAtCreatedPair`, for a single booking and a single user: a
user id already present in the aggregate is skipped (bookings are scanned
most recent first, so the first hit is the most recent); a booking not
listing the user's email is skipped; a booking with
`organizerIdAndAtCreatedPair[user.id] > booking.createdAt` is skipped;
otherwise the user's entry is set to the booking's creation time. -/
def attendeeConsider (orgPair : Int → Nat) (booking : PartialBooking)
    (agg : Int → Option Nat) (user : PartialUser) : Int → Option Nat :=
  if (agg user.id).isSome then agg
  else if ¬ bookingListsEmail booking user.email then agg
  else if orgPair user.id > booking.createdAt then agg
  else fun id => if id = user.id then some booking.createdAt else agg id

/-- One step of the reduction building `attendeeUserIdAndAtCreatedPair`: the
inner `forEach` over `availableUsers` for a single booking. -/
def attendeeStep (availableUsers : List PartialUser) (orgPair : Int → Nat)
    (agg : Int → Option Nat) (booking : PartialBooking) : Int → Option Nat :=
  availableUsers.foldl (attendeeConsider orgPair booking) agg

/-- The attendee-recency map `attendeeUserIdAndAtCreatedPair`: the reduce over
`allBookings` of `attendeeStep`, starting from the empty map. -/
def attendeeUserIdAndAtCreatedPair (availableUsers : List PartialUser)
    (orgPair : Int → Nat) (allBookings : List PartialBooking) : Int → Option Nat :=
  allBookings.foldl (attendeeStep availableUsers orgPair) (fun _ => none)

/-- The merged recency map `userIdAndAtCreatedPair = { ...organizer,
...attendee }`: the attendee entry overrides the organizer entry whenever
present. -/
def userIdAndAtCreatedPair (availableUsers : List PartialUser)
    (lastOrganizerBookingCreatedAt : Int → Option Nat)
    (allBookings : List PartialBooking) (userId : Int) : Nat :=
  (attendeeUserIdAndAtCreatedPair availableUsers
      (organizerIdAndAtCreatedPair lastOrganizerBookingCreatedAt) allBookings userId).getD
    (organizerIdAndAtCreatedPair lastOrganizerBookingCreatedAt userId)

/-- The sort comparator of `leastRecentlyBookedUser` as a boolean
"sorts-no-later-than" relation: comparator result `-1` (keep `a` before `b`)
for a strictly older merged timestamp, `1` for a strictly newer one, and the
coin flip `rnd a b` on ties (`rnd a b = true` meaning the flip returned `-1`,
keeping `a` before `b`). -/
def recencyLe (mergedAt : Int → Nat) (rnd : PartialUser → PartialUser → Bool)
    (a b : PartialUser) : Bool :=
  if mergedAt a.id < mergedAt b.id then true
  else if mergedAt b.id < mergedAt a.id then false
  else rnd a b

/-- `leastRecentlyBookedUser`: build the merged recency map, sort the
available users by it ascending (ties randomized) and take the first element
(`[0]`, that is `none` on an empty pool). The guard `if
(!userIdAndAtCreatedPair) throw ...` tests a freshly built object, which is
always truthy in JavaScript, so the error branch is unreachable. -/
def leastRecentlyBookedUser (availableUsers : List PartialUser)
    (lastOrganizerBookingCreatedAt : Int → Option Nat)
    (allBookings : List PartialBooking)
    (rnd : PartialUser → PartialUser → Bool) : Except String (Option PartialUser) :=
  let mergedAt := userIdAndAtCreatedPair availableUsers lastOrganizerBookingCreatedAt allBookings
  if (false : Bool) then .error "Unable to find users by availableUser ids."
  else .ok (availableUsers.mergeSort (recencyLe mergedAt rnd)).head?

/-- `getUsersWithHighestPriority`: `Math.max` of `user.priority ?? 2` over the
pool (with `⊥` as `-Infinity` for an empty pool), then keep the users with
`user.priority === highestPriority || (user.priority == null &&
highestPriority === 2)`. -/
def getUsersWithHighestPriority (availableUsers : List PartialUser) : List PartialUser :=
  let highestPriority : WithBot Int := (availableUsers.map (fun user => user.priority.getD 2)).maximum
  availableUsers.filter (fun user =>
    match user.priority with
    | some p => decide ((p : WithBot Int) = highestPriority)
    | none => decide (highestPriority = ((2 : Int) : WithBot Int)))

/-- `allRRHosts.reduce((sum, host) => sum + (host.weightAdjustment ?? 0), 0)`. -/
def allWeightAdjustments (allRRHosts : List RRHost) : ℚ :=
  allRRHosts.foldl (fun sum host => sum + host.weightAdjustment.getD 0) 0

/-- `allRRHosts.reduce((sum, host) => sum + (host.weight ?? 100), 0)`. -/
def totalWeight (allRRHosts : List RRHost) : ℚ :=
  allRRHosts.foldl (fun sum host => sum + host.weight.getD 100) 0

/-- The bookings counted for a user: the user is the organizer
(`booking.userId === user.id`) or appears among the attendees by email. -/
def userBookings (user : PartialUser) (allBookings : List PartialBooking) : List PartialBooking :=
  allBookings.filter (fun booking =>
    booking.userId == some user.id
      || booking.attendees.any (fun attendee => attendee.email == some user.email))

/-- The `bookingShortfall` computed for one user inside
`getUsersBasedOnWeights`: `targetNumberOfBookings - (userBookings.length +
(user.weightAdjustment ?? 0))` with `targetNumberOfBookings =
(allBookings.length + allWeightAdjustments) * targetPercentage` and
`targetPercentage = (user.weight ?? 100) / totalWeight`. -/
def bookingShortfall (user : PartialUser) (allRRHosts : List RRHost)
    (allBookings : List PartialBooking) : ℚ :=
  let targetPercentage : ℚ := user.weight.getD 100 / totalWeight allRRHosts
  let targetNumberOfBookings : ℚ :=
    ((allBookings.length : ℚ) + allWeightAdjustments allRRHosts) * targetPercentage
  targetNumberOfBookings - (((userBookings user allBookings).length : ℚ) + user.weightAdjustment.getD 0)

/-- `getUsersBasedOnWeights`: compute each available user's shortfall, take
`Math.max` over them (with `⊥` as `-Infinity`), collect the ids of the users
attaining it, and keep the available users whose id is in that set. -/
def getUsersBasedOnWeights (availableUsers : List PartialUser)
    (allRRHosts : List RRHost) (allBookings : List PartialBooking) : List PartialUser :=
  let usersWithBookingShortfalls :=
    availableUsers.map (fun user => (user, bookingShortfall user allRRHosts allBookings))
  let maxShortfall : WithBot ℚ := (usersWithBookingShortfalls.map (fun p => p.2)).maximum
  let userIdsWithMaxShortfall :=
    (usersWithBookingShortfalls.filter (fun p => decide ((p.2 : WithBot ℚ) = maxShortfall))).map
      (fun p => p.1.id)
  availableUsers.filter (fun user => userIdsWithMaxShortfall.contains user.id)

/-- `getLuckyUser`: fast path for a single available user, then dispatch on
the distribution algorithm. `MAXIMIZE_AVAILABILITY` runs the weight-shortfall
filter (only when enabled), the priority filter and the recency tiebreak in
sequence; any other algorithm value falls through the `switch` and yields
`undefined` (`Option.none`), not an error. The booking fetch and the organizer
query are external inputs (see module docstring). -/
def getLuckyUser (distributionAlgorithm : String) (p : GetLuckyUserParams)
    (lastOrganizerBookingCreatedAt : Int → Option Nat)
    (allBookings : List PartialBooking)
    (rnd : PartialUser → PartialUser → Bool) : Except String (Option PartialUser) :=
  if p.availableUsers.length = 1 then .ok p.availableUsers.head?
  else
    match distributionAlgorithm with
    | "MAXIMIZE_AVAILABILITY" =>
      let possibleLuckyUsers :=
        if p.eventType.isRRWeightsEnabled then
          getUsersBasedOnWeights p.availableUsers p.allRRHosts allBookings
        else p.availableUsers
      let highestPriorityUsers := getUsersWithHighestPriority possibleLuckyUsers
      leastRecentlyBookedUser highestPriorityUsers lastOrganizerBookingCreatedAt allBookings rnd
    | _ => .ok none

/-- The effective priority tier of a user: the `priority` value, defaulting
to 2 ("medium") when unset, as in `user.priority ?? 2`. -/
def effectivePriority (user : PartialUser) : Int :=
  user.priority.getD 2

/-- Whether a booking is considered for a user in the attendee pass of the
recency computation: it lists the user's email among its attendees and is not
skipped by the guard `organizerIdAndAtCreatedPair[user.id] >
booking.createdAt` — i.e. its creation time is at or after the user's
organizer-recency timestamp. -/
def attendeeRelevant (orgPair : Int → Nat) (user : PartialUser)
    (booking : PartialBooking) : Bool :=
  bookingListsEmail booking user.email && decide (orgPair user.id ≤ booking.createdAt)

/-- The merged recency timestamp of a user, characterized per user: the
creation time of the first booking in scan order that the attendee pass
records for the user, and otherwise the organizer-recency value (with
`new Date(0)` for "never booked"). -/
def recencyKey (lastOrganizerBookingCreatedAt : Int → Option Nat)
    (allBookings : List PartialBooking) (user : PartialUser) : Nat :=
  match allBookings.find?
      (attendeeRelevant (organizerIdAndAtCreatedPair lastOrganizerBookingCreatedAt) user) with
  | some b => b.createdAt
  | none => organizerIdAndAtCreatedPair lastOrganizerBookingCreatedAt user.id

/-- The target share as the specification words it: candidate weight
(default 100) divided by the sum of all roster weights (each defaulting
to 100). -/
def specTargetShare (user : PartialUser) (allRRHosts : List RRHost) : ℚ :=
  user.weight.getD 100 / totalWeight allRRHosts

/-- The target booking count as the specification words it:
`(totalHistoricalBookings + sumOfAllRosterWeightAdjustments) * targetShare`. -/
def specTargetBookings (user : PartialUser) (allRRHosts : List RRHost)
    (allBookings : List PartialBooking) : ℚ :=
  ((allBookings.length : ℚ) + allWeightAdjustments allRRHosts) * specTargetShare user allRRHosts

/-- A candidate's historical booking count as the specification words it: the
number of historical records where the candidate is either the organizer or
listed among attendees. -/
def specHistoricalCount (user : PartialUser) (allBookings : List PartialBooking) : Nat :=
  (allBookings.filter (fun booking =>
    booking.userId == some user.id
      || booking.attendees.any (fun attendee => attendee.email == some user.email))).length

/-- The shortfall as the specification words it: `targetBookings -
(historical booking count + own weightAdjustment, default 0)`. -/
def specShortfall (user : PartialUser) (allRRHosts : List RRHost)
    (allBookings : List PartialBooking) : ℚ :=
  specTargetBookings user allRRHosts allBookings
    - ((specHistoricalCount user allBookings : ℚ) + user.weightAdjustment.getD 0)

/-- A sample host. -/
def sampleUser1 : PartialUser := { id := 1, email := "user1" }

/-- Another sample host. -/
def sampleUser2 : PartialUser := { id := 2, email := "user2" }

/-- First host of end-to-end scenario A: priority 1. -/
def scenarioAUser1 : PartialUser := { id := 1, email := "user1", priority := some 1 }

/-- Second host of end-to-end scenario A: priority 2. -/
def scenarioAUser2 : PartialUser := { id := 2, email := "user2", priority := some 2 }

/-- First host of end-to-end scenario C: weight 200, one historical booking. -/
def scenarioCUser1 : PartialUser := { id := 1, email := "user1", weight := some 200 }

/-- Second host of end-to-end scenario C: weight 100, three historical
bookings. -/
def scenarioCUser2 : PartialUser := { id := 2, email := "user2", weight := some 100 }

/-- The roster of scenario C: total weight 300, zero adjustments. -/
def scenarioCHosts : List RRHost :=
  [{ userId := 1, userEmail := "user1", weight := some 200 },
   { userId := 2, userEmail := "user2", weight := some 100 }]

/-- The booking history of scenario C: four bookings, three organized by U2,
one by U1. -/
def scenarioCBookings : List PartialBooking :=
  [{ id := 101, createdAt := 40, userId := some 2, attendees := [] },
   { id := 102, createdAt := 30, userId := some 2, attendees := [] },
   { id := 103, createdAt := 20, userId := some 2, attendees := [] },
   { id := 104, createdAt := 10, userId := some 1, attendees := [] }]

/-- A host used in the recency examples. -/
def recencyUser : PartialUser := { id := 1, email := "user1" }

/-- A booking created exactly at `recencyUser`'s organizer-recency timestamp
and listing `recencyUser` among its attendees. -/
def equalTimeBooking : PartialBooking :=
  { id := 50, createdAt := 100, userId := none, attendees := [{ email := some "user1" }] }

/-- An organizer-recency query result: user 1 last organized a qualifying
booking created at time 100; nobody else organized any. -/
def recencyOrgDates : Int → Option Nat := fun id => if id = 1 then some 100 else none

/-- A host with no qualifying organizer booking and no attendee mention. -/
def neverBookedUser : PartialUser := { id := 3, email := "user3" }

lemma mem_getUsersWithHighestPriority_iff {l : List PartialUser} {u : PartialUser} :
    u ∈ getUsersWithHighestPriority l ↔
      u ∈ l ∧ ∀ v ∈ l, effectivePriority v ≤ effectivePriority u := by
  unfold getUsersWithHighestPriority
  rw [List.mem_filter]
  refine and_congr_right fun hu => ?_
  have hmem : effectivePriority u ∈ l.map (fun user => user.priority.getD 2) :=
    List.mem_map.mpr ⟨u, hu, rfl⟩
  have hiff : (l.map (fun user => user.priority.getD 2)).maximum
        = ((effectivePriority u : Int) : WithBot Int)
      ↔ ∀ v ∈ l, effectivePriority v ≤ effectivePriority u := by
    rw [List.maximum_eq_coe_iff]
    constructor
    · rintro ⟨-, h⟩ v hv
      exact h _ (List.mem_map.mpr ⟨v, hv, rfl⟩)
    · intro h
      refine ⟨hmem, fun a ha => ?_⟩
      obtain ⟨v, hv, rfl⟩ := List.mem_map.mp ha
      exact h v hv
  cases hp : u.priority with
  | none =>
    have h2 : effectivePriority u = 2 := by simp [effectivePriority, hp]
    rw [h2] at hiff
    simp only [hp, decide_eq_true_eq]
    rw [h2]
    exact hiff
  | some p =>
    have h2 : effectivePriority u = p := by simp [effectivePriority, hp]
    rw [h2] at hiff
    simp only [hp, decide_eq_true_eq]
    rw [h2, eq_comm]
    exact hiff

lemma getUsersWithHighestPriority_eq_nil_iff {l : List PartialUser} :
    getUsersWithHighestPriority l = [] ↔ l = [] := by
  constructor
  · intro hempty
    by_contra hne
    cases hmax : (l.map (fun user => user.priority.getD 2)).maximum with
    | bot =>
      rw [List.maximum_eq_bot] at hmax
      exact hne (List.map_eq_nil_iff.mp hmax)
    | coe m =>
      obtain ⟨hm_mem, hm_le⟩ := List.maximum_eq_coe_iff.mp hmax
      obtain ⟨v, hv, hfv⟩ := List.mem_map.mp hm_mem
      have hvmem : v ∈ getUsersWithHighestPriority l := by
        rw [mem_getUsersWithHighestPriority_iff]
        refine ⟨hv, fun w hw => ?_⟩
        have := hm_le _ (List.mem_map.mpr ⟨w, hw, rfl⟩)
        simpa [effectivePriority, hfv] using this
      rw [hempty] at hvmem
      exact List.not_mem_nil v hvmem
  · intro h
    subst h
    rfl

/-- Claim C5: the priority filter returns exactly the candidates whose
effective priority (missing/null priority defaulting to 2) equals the maximum
effective priority over the candidate set — in particular membership depends
only on the effective priority, so an explicit priority 2 and an unset
priority are treated identically — and the output is non-empty if and only if
the input is non-empty. -/
theorem getUsersWithHighestPriority_correct (availableUsers : List PartialUser) :
    (∀ u, u ∈ getUsersWithHighestPriority availableUsers ↔
        u ∈ availableUsers ∧
          ∀ v ∈ availableUsers, effectivePriority v ≤ effectivePriority u) ∧
      (getUsersWithHighestPriority availableUsers = [] ↔ availableUsers = []) :=
  ⟨fun _ => mem_getUsersWithHighestPriority_iff, getUsersWithHighestPriority_eq_nil_iff⟩

lemma getUsersWithHighestPriority_singleton (u : PartialUser) :
    getUsersWithHighestPriority [u] = [u] := by
  cases hp : u.priority with
  | none => simp [getUsersWithHighestPriority, hp, List.maximum_singleton]
  | some p => simp [getUsersWithHighestPriority, hp, List.maximum_singleton]

/-- Claim C8: when weighting is disabled for the event type, the
weight-shortfall stage is skipped and the candidate set handed to the
priority filter is the original `availableUsers` unchanged: the whole call
equals the recency tiebreak applied to the priority filter of
`availableUsers`. -/
theorem getLuckyUser_weights_disabled (users : List PartialUser) (etId : Int)
    (hosts : List RRHost) (org : Int → Option Nat) (bks : List PartialBooking)
    (rnd : PartialUser → PartialUser → Bool) :
    getLuckyUser "MAXIMIZE_AVAILABILITY" ⟨users, ⟨etId, false⟩, hosts⟩ org bks rnd =
      leastRecentlyBookedUser (getUsersWithHighestPriority users) org bks rnd := by
  by_cases hlen : users.length = 1
  · obtain ⟨u, rfl⟩ := List.length_eq_one.mp hlen
    simp [getLuckyUser, getUsersWithHighestPriority_singleton, leastRecentlyBookedUser]
  · simp [getLuckyUser, hlen]

/-- Claim C10: with an empty `availableUsers` pool, `getLuckyUser` completes
without raising any error and returns no host: for every algorithm value the
result is `.ok none` (the JavaScript `undefined`), never `.error`. -/
theorem getLuckyUser_empty (alg : String) (et : EventTypeInfo) (hosts : List RRHost)
    (org : Int → Option Nat) (bks : List PartialBooking)
    (rnd : PartialUser → PartialUser → Bool) :
    getLuckyUser alg ⟨[], et, hosts⟩ org bks rnd = .ok none := by
  unfold getLuckyUser
  rw [if_neg (by simp)]
  split
  · simp [getUsersBasedOnWeights, getUsersWithHighestPriority, leastRecentlyBookedUser]
  · rfl

/-- Claim C3 (code behavior at the failing input): with two available users
and the unrecognized algorithm value "SOME_FUTURE_ALGORITHM", the `switch`
has no matching case and no default, so the call resolves silently with
`undefined` (`.ok none`) — no host, but also no ConfigurationError as the
specification requires. -/
theorem getLuckyUser_unknown_algorithm_silent :
    getLuckyUser "SOME_FUTURE_ALGORITHM" ⟨[sampleUser1, sampleUser2], ⟨1, false⟩, []⟩
      (fun _ => none) [] (fun _ _ => true) = .ok none := by
  rfl

lemma scenarioA_run (etId : Int) (hosts : List RRHost) (org : Int → Option Nat)
    (bks : List PartialBooking) (rnd : PartialUser → PartialUser → Bool) :
    getLuckyUser "MAXIMIZE_AVAILABILITY"
        ⟨[scenarioAUser1, scenarioAUser2], ⟨etId, false⟩, hosts⟩ org bks rnd =
      .ok (some scenarioAUser2) := by
  have hp : getUsersWithHighestPriority [scenarioAUser1, scenarioAUser2] = [scenarioAUser2] := by
    decide
  simp [getLuckyUser, hp, leastRecentlyBookedUser]

/-- Claim C6 counterexample: in the two-candidate pool where U1 has priority
1 and U2 has priority 2, with weighting disabled, the priority filter keeps
U2 (the numerically highest tier), and the pipeline chooses U2 — not U1 as
the claim states. -/
theorem scenarioA_counterexample :
    getUsersWithHighestPriority [scenarioAUser1, scenarioAUser2] = [scenarioAUser2] ∧
      getLuckyUser "MAXIMIZE_AVAILABILITY"
          ⟨[scenarioAUser1, scenarioAUser2], ⟨1, false⟩, []⟩ (fun _ => none) []
          (fun _ _ => true) = .ok (some scenarioAUser2) ∧
      scenarioAUser2 ≠ scenarioAUser1 :=
  ⟨by decide, scenarioA_run 1 [] (fun _ => none) [] (fun _ _ => true), by decide⟩

/-- Claim C6 (amended): for the two-candidate input where U1 has priority 1
and U2 has priority 2, with weighting disabled, only U2 — the candidate at
the numerically highest priority tier — survives the priority filter
regardless of booking history, and the pipeline chooses U2. -/
theorem scenarioA_amended (etId : Int) (hosts : List RRHost) (org : Int → Option Nat)
    (bks : List PartialBooking) (rnd : PartialUser → PartialUser → Bool) :
    getUsersWithHighestPriority [scenarioAUser1, scenarioAUser2] = [scenarioAUser2] ∧
      getLuckyUser "MAXIMIZE_AVAILABILITY"
          ⟨[scenarioAUser1, scenarioAUser2], ⟨etId, false⟩, hosts⟩ org bks rnd =
        .ok (some scenarioAUser2) :=
  ⟨by decide, scenarioA_run etId hosts org bks rnd⟩

lemma specShortfall_eq_bookingShortfall (user : PartialUser) (allRRHosts : List RRHost)
    (allBookings : List PartialBooking) :
    specShortfall user allRRHosts allBookings = bookingShortfall user allRRHosts allBookings :=
  rfl

lemma mem_getUsersBasedOnWeights_iff {availableUsers : List PartialUser}
    {allRRHosts : List RRHost} {allBookings : List PartialBooking} {u : PartialUser}
    (hnd : (availableUsers.map PartialUser.id).Nodup) :
    u ∈ getUsersBasedOnWeights availableUsers allRRHosts allBookings ↔
      u ∈ availableUsers ∧
        ∀ v ∈ availableUsers,
          bookingShortfall v allRRHosts allBookings ≤ bookingShortfall u allRRHosts allBookings := by
  unfold getUsersBasedOnWeights
  rw [List.mem_filter]
  refine and_congr_right fun hu => ?_
  have hmm : ((availableUsers.map
        (fun user => (user, bookingShortfall user allRRHosts allBookings))).map
          (fun p => p.2)) =
      availableUsers.map (fun user => bookingShortfall user allRRHosts allBookings) := by
    rw [List.map_map]
    rfl
  constructor
  · intro hc
    rw [List.elem_iff] at hc
    obtain ⟨p, hpfilter, hpid⟩ := List.mem_map.mp hc
    obtain ⟨hpmem, hq⟩ := List.mem_filter.mp hpfilter
    obtain ⟨v, hv, rfl⟩ := List.mem_map.mp hpmem
    rw [decide_eq_true_eq] at hq
    have hveq : v = u := List.inj_on_of_nodup_map hnd hv hu hpid
    subst hveq
    rw [hmm, eq_comm, List.maximum_eq_coe_iff] at hq
    intro w hw
    exact hq.2 _ (List.mem_map.mpr ⟨w, hw, rfl⟩)
  · intro hall
    rw [List.elem_iff]
    refine List.mem_map.mpr
      ⟨(u, bookingShortfall u allRRHosts allBookings), List.mem_filter.mpr ⟨?_, ?_⟩, rfl⟩
    · exact List.mem_map.mpr ⟨u, hu, rfl⟩
    · rw [decide_eq_true_eq, hmm, eq_comm, List.maximum_eq_coe_iff]
      refine ⟨List.mem_map.mpr ⟨u, hu, rfl⟩, fun a ha => ?_⟩
      obtain ⟨w, hw, rfl⟩ := List.mem_map.mp ha
      exact hall w hw

/-- Claim C2: with weighting applicable (non-zero total roster weight) and
distinct candidate ids, the weight-shortfall filter returns exactly the
candidates whose shortfall — as the specification defines it:
`(totalHistoricalBookings + sumOfAllRosterWeightAdjustments) * (weight /
totalWeight) - (historical booking count + own weightAdjustment)` — equals
the maximum shortfall over all candidates, all ties retained. -/
theorem getUsersBasedOnWeights_correct (availableUsers : List PartialUser)
    (allRRHosts : List RRHost) (allBookings : List PartialBooking)
    (hw : totalWeight allRRHosts ≠ 0)
    (hnd : (availableUsers.map PartialUser.id).Nodup) :
    ∀ u, u ∈ getUsersBasedOnWeights availableUsers allRRHosts allBookings ↔
      u ∈ availableUsers ∧
        ∀ v ∈ availableUsers,
          specShortfall v allRRHosts allBookings ≤ specShortfall u allRRHosts allBookings := by
  intro u
  rw [mem_getUsersBasedOnWeights_iff hnd]
  simp only [specShortfall_eq_bookingShortfall]

/-- Witness for Claim C2, at the concrete scenario C input. -/
theorem getUsersBasedOnWeights_correct_witness :
    totalWeight scenarioCHosts ≠ 0 ∧
      (scenarioCUser1 ∈ getUsersBasedOnWeights [scenarioCUser1, scenarioCUser2]
          scenarioCHosts scenarioCBookings ↔
        scenarioCUser1 ∈ [scenarioCUser1, scenarioCUser2] ∧
          ∀ v ∈ [scenarioCUser1, scenarioCUser2],
            specShortfall v scenarioCHosts scenarioCBookings ≤
              specShortfall scenarioCUser1 scenarioCHosts scenarioCBookings) :=
  have hw : totalWeight scenarioCHosts ≠ 0 := by
    norm_num [totalWeight, scenarioCHosts]
  ⟨hw, getUsersBasedOnWeights_correct [scenarioCUser1, scenarioCUser2] scenarioCHosts
    scenarioCBookings hw (by decide) scenarioCUser1⟩

lemma attendeeConsider_apply_ne {orgPair : Int → Nat} {booking : PartialBooking}
    {agg : Int → Option Nat} {user : PartialUser} {k : Int} (h : user.id ≠ k) :
    attendeeConsider orgPair booking agg user k = agg k := by
  unfold attendeeConsider
  by_cases h1 : (agg user.id).isSome
  · rw [if_pos h1]
  · rw [if_neg h1]
    by_cases h2 : ¬ bookingListsEmail booking user.email
    · rw [if_pos h2]
    · rw [if_neg h2]
      by_cases h3 : orgPair user.id > booking.createdAt
      · rw [if_pos h3]
      · rw [if_neg h3]
        exact if_neg fun hk => h hk.symm

lemma attendeeStep_apply_notmem {orgPair : Int → Nat} {booking : PartialBooking} :
    ∀ (users : List PartialUser) (agg : Int → Option Nat) (k : Int),
      (∀ v ∈ users, v.id ≠ k) → attendeeStep users orgPair agg booking k = agg k := by
  intro users
  induction users with
  | nil => intro agg k _; rfl
  | cons v vs ih =>
    intro agg k h
    have h1 : attendeeStep (v :: vs) orgPair agg booking =
        attendeeStep vs orgPair (attendeeConsider orgPair booking agg v) booking := rfl
    rw [h1, ih _ _ (fun w hw => h w (List.mem_cons_of_mem v hw))]
    exact attendeeConsider_apply_ne (h v (List.mem_cons_self v vs))

lemma attendeeStep_apply {orgPair : Int → Nat} {booking : PartialBooking} :
    ∀ (users : List PartialUser) (agg : Int → Option Nat) (u : PartialUser),
      (users.map PartialUser.id).Nodup → u ∈ users →
      attendeeStep users orgPair agg booking u.id =
        if (agg u.id).isSome then agg u.id
        else if attendeeRelevant orgPair u booking then some booking.createdAt
        else agg u.id := by
  intro users
  induction users with
  | nil => intro agg u _ hu; cases hu
  | cons v vs ih =>
    intro agg u hnd hu
    have hx : v.id ∉ vs.map PartialUser.id ∧ (vs.map PartialUser.id).Nodup := by
      simpa using hnd
    have hstep : attendeeStep (v :: vs) orgPair agg booking =
        attendeeStep vs orgPair (attendeeConsider orgPair booking agg v) booking := rfl
    rw [hstep]
    rcases List.mem_cons.mp hu with rfl | hu2
    · have hvs : ∀ w ∈ vs, w.id ≠ u.id := by
        intro w hw heq
        exact hx.1 (heq ▸ List.mem_map.mpr ⟨w, hw, rfl⟩)
      rw [attendeeStep_apply_notmem vs _ u.id hvs]
      by_cases h1 : (agg u.id).isSome
      · simp [attendeeConsider, h1]
      · by_cases h2 : bookingListsEmail booking u.email
        · by_cases h3 : orgPair u.id > booking.createdAt
          · have hnle : ¬ orgPair u.id ≤ booking.createdAt := Nat.not_le.mpr h3
            simp [attendeeConsider, attendeeRelevant, h1, h2, h3, hnle]
          · have hle : orgPair u.id ≤ booking.createdAt := Nat.le_of_not_lt h3
            simp [attendeeConsider, attendeeRelevant, h1, h2, h3, hle]
        · simp [attendeeConsider, attendeeRelevant, h1, h2]
    · have hved : v.id ≠ u.id := by
        intro heq
        exact hx.1 (heq ▸ List.mem_map.mpr ⟨u, hu2, rfl⟩)
      rw [ih (attendeeConsider orgPair booking agg v) u hx.2 hu2,
        attendeeConsider_apply_ne hved]

lemma attendeeMap_foldl_eq {orgPair : Int → Nat} {users : List PartialUser} {u : PartialUser}
    (hnd : (users.map PartialUser.id).Nodup) (hu : u ∈ users) :
    ∀ (bks : List PartialBooking) (agg : Int → Option Nat),
      (bks.foldl (attendeeStep users orgPair) agg) u.id =
        match agg u.id with
        | some t => some t
        | none => (bks.find? (attendeeRelevant orgPair u)).map (fun b => b.createdAt) := by
  intro bks
  induction bks with
  | nil =>
    intro agg
    cases h : agg u.id <;> simp [h]
  | cons b bs ih =>
    intro agg
    rw [List.foldl_cons, ih, attendeeStep_apply users agg u hnd hu]
    cases h : agg u.id with
    | some t => simp [h]
    | none =>
      simp only [h, Option.isSome_none, Bool.false_eq_true, if_false]
      by_cases hr : attendeeRelevant orgPair u b
      · rw [if_pos hr, List.find?_cons_of_pos _ hr]
        simp
      · rw [if_neg hr, List.find?_cons_of_neg _ hr]

lemma attendeeMap_eq_find? {orgPair : Int → Nat} {users : List PartialUser}
    {bks : List PartialBooking} {u : PartialUser}
    (hnd : (users.map PartialUser.id).Nodup) (hu : u ∈ users) :
    attendeeUserIdAndAtCreatedPair users orgPair bks u.id =
      (bks.find? (attendeeRelevant orgPair u)).map (fun b => b.createdAt) := by
  unfold attendeeUserIdAndAtCreatedPair
  rw [attendeeMap_foldl_eq hnd hu]

lemma userIdAndAtCreatedPair_eq_recencyKey {lastOrg : Int → Option Nat}
    {users : List PartialUser} {bks : List PartialBooking} {u : PartialUser}
    (hnd : (users.map PartialUser.id).Nodup) (hu : u ∈ users) :
    userIdAndAtCreatedPair users lastOrg bks u.id = recencyKey lastOrg bks u := by
  unfold userIdAndAtCreatedPair recencyKey
  rw [attendeeMap_eq_find? hnd hu]
  cases bks.find? (attendeeRelevant (organizerIdAndAtCreatedPair lastOrg) u) <;> simp

lemma find?_sorted_max {p : PartialBooking → Bool} :
    ∀ {bks : List PartialBooking} {b0 : PartialBooking},
      bks.Pairwise (fun a b => b.createdAt ≤ a.createdAt) →
      bks.find? p = some b0 →
      ∀ b ∈ bks, p b → b.createdAt ≤ b0.createdAt := by
  intro bks
  induction bks with
  | nil => intro b0 _ h; cases h
  | cons hd tl ih =>
    intro b0 hpw hfind b hb hpb
    by_cases hphd : p hd
    · rw [List.find?_cons_of_pos _ hphd] at hfind
      cases hfind
      rcases List.mem_cons.mp hb with rfl | hbtl
      · exact le_refl _
      · exact (List.pairwise_cons.mp hpw).1 b hbtl
    · rw [List.find?_cons_of_neg _ hphd] at hfind
      rcases List.mem_cons.mp hb with rfl | hbtl
      · exact absurd hpb hphd
      · exact ih (List.pairwise_cons.mp hpw).2 hfind b hbtl hpb

/-- Claim C4 counterexample: the attendee pass also considers a booking whose
creation time exactly equals the candidate's organizer-recency timestamp (the
source skips only strictly older bookings): with organizer recency 100 and a
single attendee booking created at 100, the attendee map records an entry for
the user even though no booking is strictly after the organizer timestamp. -/
theorem attendee_recency_counterexample :
    attendeeUserIdAndAtCreatedPair [recencyUser] (organizerIdAndAtCreatedPair recencyOrgDates)
        [equalTimeBooking] recencyUser.id = some 100 ∧
      ∀ b ∈ [equalTimeBooking],
        ¬ organizerIdAndAtCreatedPair recencyOrgDates recencyUser.id < b.createdAt := by
  decide

/-- Claim C4 (amended): scanning bookings most-recent-first, the attendee
pass records for each candidate only bookings that list the candidate's email
among attendees and whose creation time is at or after (not strictly after)
that candidate's organizer-recency timestamp; whenever such a booking exists
the recorded timestamp is the most recent such, and it overrides the
organizer-recency timestamp in the merged recency map. -/
theorem attendee_recency_amended {users : List PartialUser} {lastOrg : Int → Option Nat}
    {bks : List PartialBooking} {u : PartialUser}
    (hnd : (users.map PartialUser.id).Nodup) (hu : u ∈ users)
    (hsorted : bks.Pairwise (fun a b => b.createdAt ≤ a.createdAt)) :
    (∀ t, attendeeUserIdAndAtCreatedPair users (organizerIdAndAtCreatedPair lastOrg) bks u.id
        = some t →
      (∃ b ∈ bks, attendeeRelevant (organizerIdAndAtCreatedPair lastOrg) u b ∧ b.createdAt = t) ∧
        (∀ b ∈ bks, attendeeRelevant (organizerIdAndAtCreatedPair lastOrg) u b →
          b.createdAt ≤ t) ∧
        userIdAndAtCreatedPair users lastOrg bks u.id = t) ∧
      ((∃ b ∈ bks, attendeeRelevant (organizerIdAndAtCreatedPair lastOrg) u b) →
        (attendeeUserIdAndAtCreatedPair users (organizerIdAndAtCreatedPair lastOrg)
          bks u.id).isSome) := by
  constructor
  · intro t ht
    rw [attendeeMap_eq_find? hnd hu] at ht
    obtain ⟨b0, hfind, hbt⟩ := Option.map_eq_some'.mp ht
    refine ⟨⟨b0, List.mem_of_find?_eq_some hfind, List.find?_some hfind, hbt⟩, ?_, ?_⟩
    · intro b hb hrel
      have := find?_sorted_max hsorted hfind b hb hrel
      omega
    · unfold userIdAndAtCreatedPair
      rw [attendeeMap_eq_find? hnd hu, hfind]
      simpa using hbt
  · rintro ⟨b, hb, hrel⟩
    rw [attendeeMap_eq_find? hnd hu]
    cases hfind : bks.find? (attendeeRelevant (organizerIdAndAtCreatedPair lastOrg) u) with
    | none =>
      rw [List.find?_eq_none] at hfind
      exact absurd hrel (hfind b hb)
    | some b0 => simp

/-- Witness for Claim C4 (amended), at the concrete equal-timestamp input. -/
theorem attendee_recency_amended_witness :
    (([recencyUser].map PartialUser.id).Nodup ∧ recencyUser ∈ [recencyUser] ∧
        ([equalTimeBooking] : List PartialBooking).Pairwise
          (fun a b => b.createdAt ≤ a.createdAt)) ∧
      ((∀ t, attendeeUserIdAndAtCreatedPair [recencyUser]
            (organizerIdAndAtCreatedPair recencyOrgDates) [equalTimeBooking] recencyUser.id
          = some t →
        (∃ b ∈ [equalTimeBooking],
            attendeeRelevant (organizerIdAndAtCreatedPair recencyOrgDates) recencyUser b ∧
              b.createdAt = t) ∧
          (∀ b ∈ [equalTimeBooking],
            attendeeRelevant (organizerIdAndAtCreatedPair recencyOrgDates) recencyUser b →
              b.createdAt ≤ t) ∧
          userIdAndAtCreatedPair [recencyUser] recencyOrgDates [equalTimeBooking]
            recencyUser.id = t) ∧
      ((∃ b ∈ [equalTimeBooking],
          attendeeRelevant (organizerIdAndAtCreatedPair recencyOrgDates) recencyUser b) →
        (attendeeUserIdAndAtCreatedPair [recencyUser]
          (organizerIdAndAtCreatedPair recencyOrgDates) [equalTimeBooking]
            recencyUser.id).isSome)) :=
  ⟨⟨by decide, by decide, by decide⟩,
    attendee_recency_amended (by decide) (by decide) (by decide)⟩

/-- Claim C7: a candidate with zero qualifying historical bookings — no
qualifying organizer booking and no historical booking listing their email —
receives `new Date(0)`, the earliest representable time in the model, as
merged recency value, and therefore sorts before (or ties with) every other
candidate, in particular every candidate with at least one booking. -/
theorem zero_booking_candidate_first {users : List PartialUser} {lastOrg : Int → Option Nat}
    {bks : List PartialBooking} {u : PartialUser}
    (hnd : (users.map PartialUser.id).Nodup) (hu : u ∈ users)
    (horg : lastOrg u.id = none)
    (hatt : ∀ b ∈ bks, bookingListsEmail b u.email = false) :
    userIdAndAtCreatedPair users lastOrg bks u.id = 0 ∧
      ∀ v ∈ users, userIdAndAtCreatedPair users lastOrg bks u.id ≤
        userIdAndAtCreatedPair users lastOrg bks v.id := by
  have h0 : userIdAndAtCreatedPair users lastOrg bks u.id = 0 := by
    rw [userIdAndAtCreatedPair_eq_recencyKey hnd hu]
    unfold recencyKey
    have hfind : bks.find?
        (attendeeRelevant (organizerIdAndAtCreatedPair lastOrg) u) = none := by
      rw [List.find?_eq_none]
      intro b hb
      unfold attendeeRelevant
      simp [hatt b hb]
    rw [hfind]
    simp [organizerIdAndAtCreatedPair, horg]
  exact ⟨h0, fun v _ => by rw [h0]; exact Nat.zero_le _⟩

/-- Witness for Claim C7: the never-booked user 3 next to user 1 who
organized a booking at time 100. -/
theorem zero_booking_candidate_first_witness :
    (([neverBookedUser, recencyUser].map PartialUser.id).Nodup ∧
        neverBookedUser ∈ [neverBookedUser, recencyUser] ∧
        recencyOrgDates neverBookedUser.id = none ∧
        (∀ b ∈ [equalTimeBooking], bookingListsEmail b neverBookedUser.email = false)) ∧
      (userIdAndAtCreatedPair [neverBookedUser, recencyUser] recencyOrgDates
          [equalTimeBooking] neverBookedUser.id = 0 ∧
        ∀ v ∈ [neverBookedUser, recencyUser],
          userIdAndAtCreatedPair [neverBookedUser, recencyUser] recencyOrgDates
              [equalTimeBooking] neverBookedUser.id ≤
            userIdAndAtCreatedPair [neverBookedUser, recencyUser] recencyOrgDates
              [equalTimeBooking] v.id) :=
  ⟨⟨by decide, by decide, by decide, by decide⟩,
    zero_booking_candidate_first (by decide) (by decide) (by decide) (by decide)⟩

lemma getUsersBasedOnWeights_sublist (availableUsers : List PartialUser)
    (allRRHosts : List RRHost) (allBookings : List PartialBooking) :
    (getUsersBasedOnWeights availableUsers allRRHosts allBookings).Sublist availableUsers := by
  unfold getUsersBasedOnWeights
  exact List.filter_sublist _

lemma getUsersWithHighestPriority_sublist (l : List PartialUser) :
    (getUsersWithHighestPriority l).Sublist l := by
  unfold getUsersWithHighestPriority
  exact List.filter_sublist _

lemma getUsersBasedOnWeights_ne_nil {availableUsers : List PartialUser}
    {allRRHosts : List RRHost} {allBookings : List PartialBooking}
    (hne : availableUsers ≠ []) :
    getUsersBasedOnWeights availableUsers allRRHosts allBookings ≠ [] := by
  obtain ⟨v, hv, hvmax⟩ : ∃ v ∈ availableUsers,
      ((bookingShortfall v allRRHosts allBookings : ℚ) : WithBot ℚ) =
        (availableUsers.map (fun u => bookingShortfall u allRRHosts allBookings)).maximum := by
    cases hmax : (availableUsers.map
        (fun u => bookingShortfall u allRRHosts allBookings)).maximum with
    | bot =>
      rw [List.maximum_eq_bot, List.map_eq_nil_iff] at hmax
      exact absurd hmax hne
    | coe m =>
      obtain ⟨hm_mem, -⟩ := List.maximum_eq_coe_iff.mp hmax
      obtain ⟨v, hv, hfv⟩ := List.mem_map.mp hm_mem
      exact ⟨v, hv, by rw [hfv]⟩
  intro hempty
  have hvin : v ∈ getUsersBasedOnWeights availableUsers allRRHosts allBookings := by
    unfold getUsersBasedOnWeights
    rw [List.mem_filter]
    refine ⟨hv, ?_⟩
    rw [List.elem_iff]
    refine List.mem_map.mpr
      ⟨(v, bookingShortfall v allRRHosts allBookings), List.mem_filter.mpr
        ⟨List.mem_map.mpr ⟨v, hv, rfl⟩, ?_⟩, rfl⟩
    rw [decide_eq_true_eq]
    have hmm : ((availableUsers.map
          (fun user => (user, bookingShortfall user allRRHosts allBookings))).map
            (fun p => p.2)) =
        availableUsers.map (fun u => bookingShortfall u allRRHosts allBookings) := by
      rw [List.map_map]
      rfl
    rw [hmm]
    exact hvmax
  rw [hempty] at hvin
  exact List.not_mem_nil v hvin

lemma head?_mergeSort_mem {l : List PartialUser} {cmp : PartialUser → PartialUser → Bool}
    (h : l ≠ []) : ∃ u, (l.mergeSort cmp).head? = some u ∧ u ∈ l := by
  cases hms : l.mergeSort cmp with
  | nil =>
    have h2 : (l.mergeSort cmp).length = l.length := List.length_mergeSort l
    rw [hms] at h2
    exact absurd (List.length_eq_zero.mp h2.symm) h
  | cons a t =>
    refine ⟨a, rfl, ?_⟩
    exact List.mem_mergeSort.mp (hms ▸ List.mem_cons_self a t)

/-- Claim C1: for every non-empty `availableUsers` input (within the spec's
validity envelope: non-zero total roster weight whenever weighting is
enabled), each pipeline stage produces a non-empty subset of its input —
the weight stage of `availableUsers`, the priority stage of the weight
stage's output — and the returned host is a member of the original
`availableUsers` set. -/
theorem getLuckyUser_stages_invariant (users : List PartialUser) (etId : Int)
    (enabled : Bool) (hosts : List RRHost) (org : Int → Option Nat)
    (bks : List PartialBooking) (rnd : PartialUser → PartialUser → Bool)
    (hne : users ≠ []) (hwz : enabled = true → totalWeight hosts ≠ 0) :
    (if enabled then getUsersBasedOnWeights users hosts bks else users) ≠ [] ∧
      (if enabled then getUsersBasedOnWeights users hosts bks else users) ⊆ users ∧
      getUsersWithHighestPriority
          (if enabled then getUsersBasedOnWeights users hosts bks else users) ≠ [] ∧
      getUsersWithHighestPriority
          (if enabled then getUsersBasedOnWeights users hosts bks else users) ⊆
        (if enabled then getUsersBasedOnWeights users hosts bks else users) ∧
      ∃ u ∈ users,
        getLuckyUser "MAXIMIZE_AVAILABILITY" ⟨users, ⟨etId, enabled⟩, hosts⟩ org bks rnd =
          .ok (some u) := by
  have hposs_ne : (if enabled then getUsersBasedOnWeights users hosts bks else users) ≠ [] := by
    cases enabled with
    | false => simpa using hne
    | true => simpa using getUsersBasedOnWeights_ne_nil hne
  have hposs_sub :
      (if enabled then getUsersBasedOnWeights users hosts bks else users) ⊆ users := by
    cases enabled with
    | false => simp
    | true => simpa using (getUsersBasedOnWeights_sublist users hosts bks).subset
  have hpool_ne :
      getUsersWithHighestPriority
        (if enabled then getUsersBasedOnWeights users hosts bks else users) ≠ [] :=
    fun hh => hposs_ne (getUsersWithHighestPriority_eq_nil_iff.mp hh)
  have hpool_sub := (getUsersWithHighestPriority_sublist
    (if enabled then getUsersBasedOnWeights users hosts bks else users)).subset
  refine ⟨hposs_ne, hposs_sub, hpool_ne, hpool_sub, ?_⟩
  by_cases hlen : users.length = 1
  · obtain ⟨u, rfl⟩ := List.length_eq_one.mp hlen
    exact ⟨u, List.mem_cons_self u [], by simp [getLuckyUser]⟩
  · obtain ⟨u, hhead, humem⟩ := @head?_mergeSort_mem
      (getUsersWithHighestPriority
        (if enabled then getUsersBasedOnWeights users hosts bks else users))
      (recencyLe
        (userIdAndAtCreatedPair
          (getUsersWithHighestPriority
            (if enabled then getUsersBasedOnWeights users hosts bks else users)) org bks) rnd)
      hpool_ne
    refine ⟨u, hposs_sub (hpool_sub humem), ?_⟩
    simp only [getLuckyUser]
    rw [if_neg (by simpa using hlen)]
    show Except.ok ((List.mergeSort
        (getUsersWithHighestPriority
          (if enabled then getUsersBasedOnWeights users hosts bks else users))
        (recencyLe
          (userIdAndAtCreatedPair
            (getUsersWithHighestPriority
              (if enabled then getUsersBasedOnWeights users hosts bks else users)) org bks)
          rnd)).head?) = .ok (some u)
    rw [hhead]

/-- Witness for Claim C1, with weighting disabled on a two-host pool. -/
theorem getLuckyUser_stages_invariant_witness :
    (([sampleUser1, sampleUser2] : List PartialUser) ≠ [] ∧
        ((false : Bool) = true → totalWeight [] ≠ 0)) ∧
      ((if (false : Bool) then getUsersBasedOnWeights [sampleUser1, sampleUser2] [] []
          else [sampleUser1, sampleUser2]) ≠ [] ∧
        (if (false : Bool) then getUsersBasedOnWeights [sampleUser1, sampleUser2] [] []
          else [sampleUser1, sampleUser2]) ⊆ [sampleUser1, sampleUser2] ∧
        getUsersWithHighestPriority
            (if (false : Bool) then getUsersBasedOnWeights [sampleUser1, sampleUser2] [] []
              else [sampleUser1, sampleUser2]) ≠ [] ∧
        getUsersWithHighestPriority
            (if (false : Bool) then getUsersBasedOnWeights [sampleUser1, sampleUser2] [] []
              else [sampleUser1, sampleUser2]) ⊆
          (if (false : Bool) then getUsersBasedOnWeights [sampleUser1, sampleUser2] [] []
            else [sampleUser1, sampleUser2]) ∧
        ∃ u ∈ [sampleUser1, sampleUser2],
          getLuckyUser "MAXIMIZE_AVAILABILITY"
              ⟨[sampleUser1, sampleUser2], ⟨1, false⟩, []⟩ (fun _ => none) []
              (fun _ _ => true) = .ok (some u)) :=
  ⟨⟨by decide, by simp⟩,
    getLuckyUser_stages_invariant [sampleUser1, sampleUser2] 1 false [] (fun _ => none) []
      (fun _ _ => true) (by decide) (by simp)⟩

lemma recencyLe_eq_true_iff (m : Int → Nat) (rnd : PartialUser → PartialUser → Bool)
    (a b : PartialUser) :
    recencyLe m rnd a b = true ↔
      m a.id < m b.id ∨ (m a.id = m b.id ∧ rnd a b = true) := by
  unfold recencyLe
  by_cases h1 : m a.id < m b.id
  · simp [h1]
  · rw [if_neg h1]
    by_cases h2 : m b.id < m a.id
    · rw [if_pos h2]
      constructor
      · intro hff
        exact absurd hff (by simp)
      · rintro (h | ⟨heq, -⟩) <;> omega
    · rw [if_neg h2]
      have heq : m a.id = m b.id := by omega
      simp [heq]

lemma recencyLe_total (m : Int → Nat) (rnd : PartialUser → PartialUser → Bool)
    (hrt : ∀ a b, rnd a b = true ∨ rnd b a = true) (a b : PartialUser) :
    (recencyLe m rnd a b || recencyLe m rnd b a) = true := by
  rcases Nat.lt_trichotomy (m a.id) (m b.id) with h | h | h
  · have hx : recencyLe m rnd a b = true := (recencyLe_eq_true_iff m rnd a b).mpr (Or.inl h)
    simp [hx]
  · rcases hrt a b with hr | hr
    · have hx : recencyLe m rnd a b = true :=
        (recencyLe_eq_true_iff m rnd a b).mpr (Or.inr ⟨h, hr⟩)
      simp [hx]
    · have hx : recencyLe m rnd b a = true :=
        (recencyLe_eq_true_iff m rnd b a).mpr (Or.inr ⟨h.symm, hr⟩)
      simp [hx]
  · have hx : recencyLe m rnd b a = true := (recencyLe_eq_true_iff m rnd b a).mpr (Or.inl h)
    simp [hx]

lemma recencyLe_trans (m : Int → Nat) (rnd : PartialUser → PartialUser → Bool)
    (hrtr : ∀ a b c, rnd a b = true → rnd b c = true → rnd a c = true)
    (a b c : PartialUser) (hab : recencyLe m rnd a b = true)
    (hbc : recencyLe m rnd b c = true) :
    recencyLe m rnd a c = true := by
  rw [recencyLe_eq_true_iff] at hab hbc ⊢
  rcases hab with h | ⟨h, hr⟩ <;> rcases hbc with h2 | ⟨h2, hr2⟩
  · exact Or.inl (h.trans h2)
  · exact Or.inl (by omega)
  · exact Or.inl (by omega)
  · exact Or.inr ⟨by omega, hrtr a b c hr hr2⟩

lemma head?_mergeSort_min {pool : List PartialUser} {m : Int → Nat}
    {rnd : PartialUser → PartialUser → Bool}
    (htot : ∀ a b, rnd a b = true ∨ rnd b a = true)
    (htrans : ∀ a b c, rnd a b = true → rnd b c = true → rnd a c = true)
    {h : PartialUser}
    (hh : (pool.mergeSort (recencyLe m rnd)).head? = some h) :
    h ∈ pool ∧ ∀ x ∈ pool, m h.id ≤ m x.id := by
  have hsorted : (pool.mergeSort (recencyLe m rnd)).Pairwise
      (fun a b => recencyLe m rnd a b = true) :=
    List.sorted_mergeSort (recencyLe_trans m rnd htrans) (recencyLe_total m rnd htot) pool
  cases hms : pool.mergeSort (recencyLe m rnd) with
  | nil =>
    rw [hms] at hh
    cases hh
  | cons a t =>
    rw [hms] at hh
    have ha : a = h := by simpa using hh
    subst ha
    constructor
    · exact List.mem_mergeSort.mp (hms ▸ List.mem_cons_self a t)
    · intro x hx
      have hxms : x ∈ a :: t := hms ▸ List.mem_mergeSort.mpr hx
      rcases List.mem_cons.mp hxms with rfl | hxt
      · exact le_refl _
      · have hle := (List.pairwise_cons.mp (hms ▸ hsorted)).1 x hxt
        rw [recencyLe_eq_true_iff] at hle
        rcases hle with hlt | ⟨heq, -⟩ <;> omega

lemma leastRecentlyBookedUser_deterministic {pool : List PartialUser}
    {org : Int → Option Nat} {bks : List PartialBooking}
    {rnd1 rnd2 : PartialUser → PartialUser → Bool}
    (h1tot : ∀ a b, rnd1 a b = true ∨ rnd1 b a = true)
    (h1trans : ∀ a b c, rnd1 a b = true → rnd1 b c = true → rnd1 a c = true)
    (h2tot : ∀ a b, rnd2 a b = true ∨ rnd2 b a = true)
    (h2trans : ∀ a b c, rnd2 a b = true → rnd2 b c = true → rnd2 a c = true)
    (hnd : (pool.map PartialUser.id).Nodup)
    (hkeys : pool.Pairwise (fun a b => recencyKey org bks a ≠ recencyKey org bks b)) :
    leastRecentlyBookedUser pool org bks rnd1 = leastRecentlyBookedUser pool org bks rnd2 := by
  by_cases hpe : pool = []
  · subst hpe
    simp [leastRecentlyBookedUser]
  · obtain ⟨u1, hh1, hm1⟩ := @head?_mergeSort_mem pool
      (recencyLe (userIdAndAtCreatedPair pool org bks) rnd1) hpe
    obtain ⟨u2, hh2, hm2⟩ := @head?_mergeSort_mem pool
      (recencyLe (userIdAndAtCreatedPair pool org bks) rnd2) hpe
    obtain ⟨-, hmin1⟩ := head?_mergeSort_min h1tot h1trans hh1
    obtain ⟨-, hmin2⟩ := head?_mergeSort_min h2tot h2trans hh2
    have hkey : ∀ a ∈ pool, userIdAndAtCreatedPair pool org bks a.id = recencyKey org bks a :=
      fun a ha => userIdAndAtCreatedPair_eq_recencyKey hnd ha
    have k12 : recencyKey org bks u1 ≤ recencyKey org bks u2 := by
      rw [← hkey u1 hm1, ← hkey u2 hm2]
      exact hmin1 u2 hm2
    have k21 : recencyKey org bks u2 ≤ recencyKey org bks u1 := by
      rw [← hkey u1 hm1, ← hkey u2 hm2]
      exact hmin2 u1 hm1
    have hsym : Symmetric (fun a b : PartialUser =>
        recencyKey org bks a ≠ recencyKey org bks b) := fun a b hab => Ne.symm hab
    have hueq : u1 = u2 := by
      by_contra hne12
      exact (hkeys.forall hsym hm1 hm2 hne12) (le_antisymm k12 k21)
    show Except.ok ((pool.mergeSort
        (recencyLe (userIdAndAtCreatedPair pool org bks) rnd1)).head?) =
      Except.ok ((pool.mergeSort
        (recencyLe (userIdAndAtCreatedPair pool org bks) rnd2)).head?)
    rw [hh1, hh2, hueq]

/-- Claim C9: two runs of the full pipeline on identical inputs whose
candidates have pairwise distinct merged recency timestamps choose the same
host, whatever the (consistently modelled) random tie-break outcomes of each
run are — the tie-break is never exercised absent ties. -/
theorem getLuckyUser_deterministic (users : List PartialUser) (etId : Int) (enabled : Bool)
    (hosts : List RRHost) (org : Int → Option Nat) (bks : List PartialBooking)
    (rnd1 rnd2 : PartialUser → PartialUser → Bool)
    (h1tot : ∀ a b, rnd1 a b = true ∨ rnd1 b a = true)
    (h1trans : ∀ a b c, rnd1 a b = true → rnd1 b c = true → rnd1 a c = true)
    (h2tot : ∀ a b, rnd2 a b = true ∨ rnd2 b a = true)
    (h2trans : ∀ a b c, rnd2 a b = true → rnd2 b c = true → rnd2 a c = true)
    (hnd : (users.map PartialUser.id).Nodup)
    (hkeys : users.Pairwise (fun a b => recencyKey org bks a ≠ recencyKey org bks b)) :
    getLuckyUser "MAXIMIZE_AVAILABILITY" ⟨users, ⟨etId, enabled⟩, hosts⟩ org bks rnd1 =
      getLuckyUser "MAXIMIZE_AVAILABILITY" ⟨users, ⟨etId, enabled⟩, hosts⟩ org bks rnd2 := by
  by_cases hlen : users.length = 1
  · simp [getLuckyUser, hlen]
  · have hsub : (getUsersWithHighestPriority
        (if enabled then getUsersBasedOnWeights users hosts bks else users)).Sublist users := by
      refine (getUsersWithHighestPriority_sublist _).trans ?_
      cases enabled with
      | false => simp
      | true => simpa using getUsersBasedOnWeights_sublist users hosts bks
    have hnd' := List.Nodup.sublist (hsub.map PartialUser.id) hnd
    have hkeys' := List.Pairwise.sublist hsub hkeys
    have hpipe : ∀ rnd : PartialUser → PartialUser → Bool,
        getLuckyUser "MAXIMIZE_AVAILABILITY" ⟨users, ⟨etId, enabled⟩, hosts⟩ org bks rnd =
          leastRecentlyBookedUser
            (getUsersWithHighestPriority
              (if enabled then getUsersBasedOnWeights users hosts bks else users))
            org bks rnd := by
      intro rnd
      simp only [getLuckyUser]
      rw [if_neg (by simpa using hlen)]
    rw [hpipe rnd1, hpipe rnd2]
    exact leastRecentlyBookedUser_deterministic h1tot h1trans h2tot h2trans hnd' hkeys'

/-- Witness for Claim C9: a two-host pool with distinct recency keys (one
host last organized at time 100, the other never booked) and two different
consistent tie-break functions. -/
theorem getLuckyUser_deterministic_witness :
    (([sampleUser1, sampleUser2].map PartialUser.id).Nodup ∧
        ([sampleUser1, sampleUser2] : List PartialUser).Pairwise
          (fun a b => recencyKey recencyOrgDates [] a ≠ recencyKey recencyOrgDates [] b)) ∧
      getLuckyUser "MAXIMIZE_AVAILABILITY" ⟨[sampleUser1, sampleUser2], ⟨1, false⟩, []⟩
          recencyOrgDates [] (fun _ _ => true) =
        getLuckyUser "MAXIMIZE_AVAILABILITY" ⟨[sampleUser1, sampleUser2], ⟨1, false⟩, []⟩
          recencyOrgDates [] (fun a b => decide (a.id ≤ b.id)) :=
  ⟨⟨by decide, by decide⟩,
    getLuckyUser_deterministic [sampleUser1, sampleUser2] 1 false [] recencyOrgDates []
      (fun _ _ => true) (fun a b => decide (a.id ≤ b.id))
      (fun _ _ => Or.inl rfl) (fun _ _ _ _ _ => rfl)
      (by
        intro a b
        rcases le_total a.id b.id with h | h
        · exact Or.inl (decide_eq_true h)
        · exact Or.inr (decide_eq_true h))
      (by
        intro a b c h1 h2
        exact decide_eq_true (le_trans (of_decide_eq_true h1) (of_decide_eq_true h2)))
      (by decide) (by decide)⟩
